import Mathlib

/-!
Verification of the filename-driven classification, grouping, ordering and
clean logic of the Applied QM documentation generator
(scripts/generate-program-docs.js, v2.1).

The embedding models:
* Node `path.basename` / `path.extname` (POSIX separators) as list-of-char
  functions;
* the regex `^Chapt(\d+)(Exercise|Fig)(\d+)([a-z]\d*)?$` with the `i` flag as a
  deterministic recursive matcher (the pattern has no ambiguous backtracking:
  each `\d+` is followed by a non-digit requirement, and the two alternation
  branches start with distinct letters);
* `extractProgramInfo`, `getFileTypeConfig`, the first (grouping) pass of
  `processAllPrograms`, the member sort in `generateIndexPage`, the category
  construction of `updateSidebar`, `extractLabelFromProgramId`, and
  `cleanGenerated`;
* JavaScript `Array.prototype.sort` (stable since ES2019; NaN comparator
  results are coerced to 0 by SortCompare) as a stable insertion sort driven
  by the comparator;
* JS `Map` / `Set` as insertion-ordered association lists / duplicate-free
  insertion-ordered lists.
-/

/-- Characters after the last slash: Node path.basename for POSIX paths. -/
def basenameSeg (s : List Char) : List Char :=
  (s.reverse.takeWhile (fun c => c ≠ '/')).reverse

/-- Node path.extname: from the last dot of the basename, provided that dot is
not the basename's first character; empty otherwise. -/
def extnameOf (s : List Char) : List Char :=
  let b := basenameSeg s
  let afterDot := b.reverse.takeWhile (fun c => c ≠ '.')
  if afterDot.length + 2 ≤ b.length then '.' :: afterDot.reverse else []

/-- The base name used by extractProgramInfo:
`path.basename(filename, path.extname(filename))` — the basename with the
extension suffix stripped. -/
def baseNameOf (s : List Char) : List Char :=
  let b := basenameSeg s
  b.take (b.length - (extnameOf s).length)

/-- Lower-cased extension of a file path, as a String
(`path.extname(f).toLowerCase()`). -/
def extLower (f : String) : String :=
  String.mk ((extnameOf f.data).map Char.toLower)

/-- CONFIG.SUPPORTED_EXTENSIONS. -/
def SUPPORTED_EXTENSIONS : List String :=
  [".m", ".tex", ".ipynb", ".pdf", ".html", ".txt"]

/-- The supported-extension filter applied by processAllPrograms before the
per-file loop. -/
def isSupportedFile (f : String) : Bool :=
  decide (extLower f ∈ SUPPORTED_EXTENSIONS)

/-- ASCII letter test for the regex character class `[a-z]` under the `i`
flag (which canonicalizes case, so A–Z match as well). -/
def isAsciiLetterChar (c : Char) : Bool :=
  (97 ≤ c.toNat && c.toNat ≤ 122) || (65 ≤ c.toNat && c.toNat ≤ 90)

/-- Case-insensitive literal match (regex `i` flag): consumes characters whose
lower-casing equals the (lowercase) literal, returning the consumed characters
verbatim together with the rest of the input. -/
def matchCIcap : List Char → List Char → Option (List Char × List Char)
  | [], s => some ([], s)
  | _ :: _, [] => none
  | p :: ps, c :: cs =>
    if c.toLower = p then
      (matchCIcap ps cs).map (fun x => (c :: x.1, x.2))
    else none

/-- Capture groups of CONFIG.PROGRAM_PATTERN: chapter digits, discriminator
token, number digits, optional variant — each verbatim from the input. -/
structure PatCaps where
  chapter : List Char
  type : List Char
  number : List Char
  variant : List Char
deriving DecidableEq

/-- Shared tail of the pattern after the discriminator: `(\d+)([a-z]\d*)?$`
(anchored at the end of the base name). -/
def matchTailAnch (c t r : List Char) : Option PatCaps :=
  let n := r.takeWhile Char.isDigit
  let r2 := r.dropWhile Char.isDigit
  if n.isEmpty then none
  else
    match r2 with
    | [] => some ⟨c, t, n, []⟩
    | ch :: rest =>
      if isAsciiLetterChar ch then
        let vd := rest.takeWhile Char.isDigit
        let r3 := rest.dropWhile Char.isDigit
        if r3.isEmpty then some ⟨c, t, n, ch :: vd⟩ else none
      else none

/-- CONFIG.PROGRAM_PATTERN `/^Chapt(\d+)(Exercise|Fig)(\d+)([a-z]\d*)?$/i`
applied to a whole base name. -/
def matchProgramPattern (s : List Char) : Option PatCaps :=
  match matchCIcap "chapt".data s with
  | none => none
  | some (_, r1) =>
    let c := r1.takeWhile Char.isDigit
    let r2 := r1.dropWhile Char.isDigit
    if c.isEmpty then none
    else
      match matchCIcap "exercise".data r2 with
      | some (t, r3) => matchTailAnch c t r3
      | none =>
        match matchCIcap "fig".data r2 with
        | some (t, r3) => matchTailAnch c t r3
        | none => none

/-- JS String.prototype.toUpperCase restricted to the ASCII range used by the
generator (character-wise upper-casing). -/
def jsToUpper (s : String) : String :=
  String.mk (s.data.map Char.toUpper)

/-- Decimal value of a digit string (JS parseInt on an all-digit string). -/
def digitsToNat (l : List Char) : Nat :=
  l.foldl (fun a c => a * 10 + (c.toNat - 48)) 0

/-- The record returned by extractProgramInfo. -/
structure ProgramInfo where
  programId : String
  chapter : String
  chapterNum : String
  type : String
  number : String
  variant : String
  displayName : String
  chapterDisplay : Nat
  isUtility : Bool
deriving DecidableEq

/-- extractProgramInfo (generate-program-docs.js v2.1): match the base name
against PROGRAM_PATTERN; on no match fall back to a utility record when the
lower-cased extension is supported, else null; on match rebuild the programId
from the literal "Chapt" plus the captured groups. -/
def extractProgramInfo (filename : String) : Option ProgramInfo :=
  let baseName : String := String.mk (baseNameOf filename.data)
  match matchProgramPattern baseName.data with
  | none =>
    if extLower filename ∈ SUPPORTED_EXTENSIONS then
      some { programId := baseName, chapter := "utilities",
             chapterNum := "utilities", type := "Utility", number := "",
             variant := "", displayName := baseName, chapterDisplay := 99,
             isUtility := true }
    else none
  | some caps =>
    let c : String := String.mk caps.chapter
    let t : String := String.mk caps.type
    let n : String := String.mk caps.number
    let v : String := String.mk caps.variant
    some { programId := "Chapt" ++ c ++ t ++ n ++ v,
           chapter := "chapter" ++ c, chapterNum := c, type := t, number := n,
           variant := v,
           displayName := "Chapter " ++ c ++ " - " ++ t ++ " " ++ n ++
             (if v = "" then "" else jsToUpper v),
           chapterDisplay := digitsToNat caps.chapter, isUtility := false }

/-- FILE_TYPES table entry. -/
structure FileTypeCfg where
  type : String
  label : String
  emoji : String
  color : String
  canReadText : Bool
  codeLanguage : Option String
  maxPreviewLength : Option Nat
  useIframe : Option Bool
  iframeHeight : Option String
deriving DecidableEq

/-- First-match association-list lookup (JS object property access on the
FILE_TYPES table and similar). -/
def lookupStr {β : Type} : List (String × β) → String → Option β
  | [], _ => none
  | (k, v) :: rest, key => if k = key then some v else lookupStr rest key

/-- FILE_TYPES from the configuration block. -/
def FILE_TYPES : List (String × FileTypeCfg) :=
  [ (".m", { type := "matlab", label := "MATLAB", emoji := "📊",
             color := "#0076a8", canReadText := true,
             codeLanguage := some "matlab", maxPreviewLength := none,
             useIframe := none, iframeHeight := none }),
    (".tex", { type := "latex", label := "LaTeX", emoji := "📝",
               color := "#008080", canReadText := true,
               codeLanguage := some "latex", maxPreviewLength := some 15000,
               useIframe := none, iframeHeight := none }),
    (".ipynb", { type := "ipynb", label := "Jupyter Notebook", emoji := "📓",
                 color := "#f37626", canReadText := false,
                 codeLanguage := none, maxPreviewLength := none,
                 useIframe := some false, iframeHeight := none }),
    (".pdf", { type := "pdf", label := "PDF Document", emoji := "📕",
               color := "#dc2626", canReadText := false, codeLanguage := none,
               maxPreviewLength := none, useIframe := some true,
               iframeHeight := some "900px" }),
    (".html", { type := "html", label := "HTML Page", emoji := "🌐",
                color := "#e34c26", canReadText := true,
                codeLanguage := some "html", maxPreviewLength := none,
                useIframe := some true, iframeHeight := some "800px" }),
    (".txt", { type := "text", label := "Text File", emoji := "📄",
               color := "#6b7280", canReadText := true,
               codeLanguage := some "text", maxPreviewLength := none,
               useIframe := none, iframeHeight := none }) ]

/-- getFileTypeConfig: look the lower-cased extension up in FILE_TYPES. -/
def getFileTypeConfig (filename : String) : Option FileTypeCfg :=
  lookupStr FILE_TYPES (extLower filename)

/-- CHAPTER_NAMES mapping. -/
def CHAPTER_NAMES : List (String × String) :=
  [ ("1", "Introduction to Quantum Mechanics"),
    ("2", "Schrödinger Equation"),
    ("3", "Quantum Wells and Barriers"),
    ("4", "Harmonic Oscillator"),
    ("5", "Tunneling and Resonance"),
    ("6", "Density of States"),
    ("7", "Band Structure"),
    ("8", "Perturbation Theory"),
    ("9", "Statistical Mechanics"),
    ("utilities", "Utility Functions") ]

/-- getChapterName with its generic fallback. -/
def getChapterName (chapterNum : String) : String :=
  (lookupStr CHAPTER_NAMES chapterNum).getD ("Chapter " ++ chapterNum)

/-- One entry of a program group's files array:
`{ filename, filePath, config }` as pushed by the first pass. -/
structure FileRec where
  filename : String
  filePath : String
  config : FileTypeCfg
deriving DecidableEq

/-- One value of the `stats.programFiles` map: `{ programInfo, files }`. -/
structure ProgramGroup where
  programInfo : ProgramInfo
  files : List FileRec
deriving DecidableEq

/-- The statistics accumulated by the first pass of processAllPrograms
(the fields the grouping phase touches). -/
structure Stats where
  skipped : Nat
  utilities : Nat
  programFiles : List (String × ProgramGroup)
  byChapter : List (String × List String)
  byType : List (String × Nat)
deriving DecidableEq

/-- JS Map.get. -/
def mapGet {β : Type} : List (String × β) → String → Option β
  | [], _ => none
  | (k, v) :: rest, key => if k = key then some v else mapGet rest key

/-- JS Map.set: update in place when the key exists, append otherwise
(JS Maps preserve insertion order). -/
def mapSet {β : Type} : List (String × β) → String → β → List (String × β)
  | [], key, v => [(key, v)]
  | (k, w) :: rest, key, v =>
    if k = key then (k, v) :: rest else (k, w) :: mapSet rest key v

/-- JS Set.add: append when absent (Sets preserve insertion order). -/
def setAdd (l : List String) (x : String) : List String :=
  if x ∈ l then l else l ++ [x]

/-- Empty statistics at the start of a run. -/
def initStats : Stats :=
  { skipped := 0, utilities := 0, programFiles := [], byChapter := [],
    byType := [] }

/-- The body of the first (grouping) forEach of processAllPrograms for one
file path: classify the basename, resolve the type, count utilities, insert
into the programFiles map, the byChapter sets and the byType counters; the
two null branches increment `skipped`. -/
def processFile (stats : Stats) (filePath : String) : Stats :=
  let filename : String := String.mk (basenameSeg filePath.data)
  match extractProgramInfo filename with
  | none => { stats with skipped := stats.skipped + 1 }
  | some info =>
    match getFileTypeConfig filename with
    | none => { stats with skipped := stats.skipped + 1 }
    | some cfg =>
      let s1 :=
        if info.isUtility then { stats with utilities := stats.utilities + 1 }
        else stats
      let group :=
        match mapGet s1.programFiles info.programId with
        | some g => { g with files := g.files ++ [⟨filename, filePath, cfg⟩] }
        | none => { programInfo := info,
                    files := [⟨filename, filePath, cfg⟩] }
      let s2 := { s1 with
        programFiles := mapSet s1.programFiles info.programId group }
      let chSet := (mapGet s2.byChapter info.chapterNum).getD []
      let s3 := { s2 with
        byChapter := mapSet s2.byChapter info.chapterNum
          (setAdd chSet info.programId) }
      let cnt := (mapGet s3.byType cfg.type).getD 0
      { s3 with byType := mapSet s3.byType cfg.type (cnt + 1) }

/-- The grouping pass over an already filtered file list. -/
def collectFiles (files : List String) : Stats :=
  files.foldl processFile initStats

/-- processAllPrograms up to the end of the grouping pass: filter the scanned
paths down to supported extensions, then group. Files removed by the filter
never reach the loop and are not recorded anywhere in the statistics. -/
def runStats (allFiles : List String) : Stats :=
  collectFiles (allFiles.filter isSupportedFile)

/-- Stable insertion of one element under a JS comparator: the new element
goes after every existing element the comparator does not place strictly
after it. -/
def insJS {α : Type} (c : α → α → Int) (x : α) : List α → List α
  | [] => [x]
  | y :: ys => if c y x ≤ 0 then y :: insJS c x ys else x :: y :: ys

/-- JS Array.prototype.sort with a comparator: stable (ES2019) and driven
only by the comparator's sign; modelled as a stable insertion sort. -/
def sortJS {α : Type} (c : α → α → Int) (l : List α) : List α :=
  l.foldl (fun acc x => insJS c x acc) []

/-- `typeOrder` from generateIndexPage. -/
def typeOrder : List String := ["matlab", "latex", "pdf", "html", "ipynb", "text"]

/-- JS Array.prototype.indexOf: first index, or -1 when absent. -/
def jsIndexOfFrom (x : String) : Nat → List String → Int
  | _, [] => -1
  | i, y :: ys => if y = x then (i : Int) else jsIndexOfFrom x (i + 1) ys

/-- JS Array.prototype.indexOf starting at 0. -/
def jsIndexOf (l : List String) (x : String) : Int :=
  jsIndexOfFrom x 0 l

/-- The sort key used by generateIndexPage's member sort:
`typeOrder.indexOf(entry.fileType)`. -/
def memberRank (r : FileRec) : Int :=
  jsIndexOf typeOrder r.config.type

/-- generateIndexPage's member ordering:
`filesList.sort((a, b) => typeOrder.indexOf(a.fileType) - typeOrder.indexOf(b.fileType))`. -/
def sortMembers (l : List FileRec) : List FileRec :=
  sortJS (fun a b => memberRank a - memberRank b) l

/-- The order in which a group's members appear on its index page. -/
def indexPageOrder (g : ProgramGroup) : List String :=
  (sortMembers g.files).map (fun r => r.filename)

/-- JS parseInt(s, 10): optional sign then the longest digit prefix; none
models NaN. -/
def jsParseInt (s : String) : Option Int :=
  let core : List Char → Option Int := fun l =>
    let d := l.takeWhile Char.isDigit
    if d.isEmpty then none else some (digitsToNat d : Int)
  match s.data with
  | '-' :: rest => (core rest).map (fun n => -n)
  | '+' :: rest => core rest
  | l => core l

/-- The chapter-key comparator of updateSidebar:
`(a, b) => parseInt(a) - parseInt(b)`; a NaN result is coerced to 0 by the
sort (ES SortCompare). -/
def cmpChapters (a b : String) : Int :=
  match jsParseInt a, jsParseInt b with
  | some x, some y => x - y
  | _, _ => 0

/-- How updateSidebar prints `parseInt(chapterNum, 10)` inside a template
string ("NaN" for non-numeric keys). -/
def renderParseInt (s : String) : String :=
  match jsParseInt s with
  | some n => toString n
  | none => "NaN"

/-- Code-unit lexicographic comparison of character lists (JS string
relational comparison for the BMP range used here). -/
def cmpCharList : List Char → List Char → Int
  | [], [] => 0
  | [], _ :: _ => -1
  | _ :: _, [] => 1
  | a :: as, b :: bs =>
    if a.toNat < b.toNat then -1
    else if b.toNat < a.toNat then 1
    else cmpCharList as bs

/-- The default (comparator-less) JS string sort used for the programs of a
chapter: code-unit lexicographic order. -/
def strCmp (a b : String) : Int :=
  cmpCharList a.data b.data

/-- The unanchored tail `(\d+)([a-z]\d*)?` of extractLabelFromProgramId's
pattern (no end anchor: trailing characters are ignored). -/
def matchTailFree (c t r : List Char) : Option PatCaps :=
  let n := r.takeWhile Char.isDigit
  let r2 := r.dropWhile Char.isDigit
  if n.isEmpty then none
  else
    match r2 with
    | [] => some ⟨c, t, n, []⟩
    | ch :: rest =>
      if isAsciiLetterChar ch then
        some ⟨c, t, n, ch :: rest.takeWhile Char.isDigit⟩
      else some ⟨c, t, n, []⟩

/-- Attempt of `/Chapt(\d+)(Exercise|Fig)(\d+)([a-z]\d*)?/i` at a fixed
position (prefix match, no anchors). -/
def matchAtPos (s : List Char) : Option PatCaps :=
  match matchCIcap "chapt".data s with
  | none => none
  | some (_, r1) =>
    let c := r1.takeWhile Char.isDigit
    let r2 := r1.dropWhile Char.isDigit
    if c.isEmpty then none
    else
      match matchCIcap "exercise".data r2 with
      | some (t, r3) => matchTailFree c t r3
      | none =>
        match matchCIcap "fig".data r2 with
        | some (t, r3) => matchTailFree c t r3
        | none => none

/-- Unanchored regex search: first position with a match wins. -/
def searchPattern : List Char → Option PatCaps
  | [] => none
  | c :: cs =>
    match matchAtPos (c :: cs) with
    | some caps => some caps
    | none => searchPattern cs

/-- extractLabelFromProgramId (utils/helpers.js) — also inlined in
updateSidebar: `${type} ${num}${variant ? variant.toUpperCase() : ''}`,
falling back to the programId itself when the pattern does not occur. -/
def extractLabelFromProgramId (programId : String) : String :=
  match searchPattern programId.data with
  | some caps =>
    String.mk caps.type ++ " " ++ String.mk caps.number ++
      (if caps.variant.isEmpty then "" else jsToUpper (String.mk caps.variant))
  | none => programId

/-- One sidebar item `{ type: 'doc', id, label }`. -/
structure SidebarItem where
  id : String
  label : String
deriving DecidableEq

/-- One sidebar category (collapsed is constant in the source). -/
structure SidebarCategory where
  label : String
  items : List SidebarItem
deriving DecidableEq

/-- updateSidebar's category construction: chapter keys sorted with
`parseInt(a) - parseInt(b)`, programs of a chapter sorted with the default
string sort, each item labelled through the inlined label extraction. The
emitted file is this structure wrapped in a fixed template (plus the
timestamp header comment). -/
def sidebarCategories (byChapter : List (String × List String)) :
    List SidebarCategory :=
  (sortJS cmpChapters (byChapter.map Prod.fst)).map (fun chapterNum =>
    { label := "Ch " ++ renderParseInt chapterNum ++ ": " ++
        getChapterName chapterNum,
      items := (sortJS strCmp ((mapGet byChapter chapterNum).getD [])).map
        (fun programId =>
          { id := "chapter" ++ chapterNum ++ "/" ++ programId ++ "/index",
            label := extractLabelFromProgramId programId }) })

/-- The file-system regions cleanGenerated can reach: the entries of the docs
output directory, the static programs root, and — untouched by the function's
code — the INBOX source files and the sidebar configuration file. -/
structure FsState where
  docsEntries : List String
  staticProgramsExists : Bool
  inboxFiles : List String
  sidebarExists : Bool
deriving DecidableEq

/-- JS String.prototype.startsWith. -/
def strStartsWith (s p : String) : Bool :=
  p.data.isPrefixOf s.data

/-- cleanGenerated: remove every docs entry whose name starts with "chapter"
and remove the static programs root; nothing else is touched. -/
def cleanGenerated (s : FsState) : FsState :=
  { s with
    docsEntries := s.docsEntries.filter (fun e => !(strStartsWith e "chapter")),
    staticProgramsExists := false }

theorem takeWhile_self_idem {α : Type} (p : α → Bool) (l : List α) :
    (l.takeWhile p).takeWhile p = l.takeWhile p := by
  rw [List.takeWhile_takeWhile]
  simp

theorem basenameSeg_idem (s : List Char) :
    basenameSeg (basenameSeg s) = basenameSeg s := by
  unfold basenameSeg
  rw [List.reverse_reverse, takeWhile_self_idem]

theorem extnameOf_basenameSeg (s : List Char) :
    extnameOf (basenameSeg s) = extnameOf s := by
  unfold extnameOf
  rw [basenameSeg_idem]

theorem baseNameOf_basenameSeg (s : List Char) :
    baseNameOf (basenameSeg s) = baseNameOf s := by
  unfold baseNameOf
  rw [basenameSeg_idem, extnameOf_basenameSeg]

theorem extLower_basenameSeg (f : String) :
    extLower (String.mk (basenameSeg f.data)) = extLower f := by
  unfold extLower
  rw [show (String.mk (basenameSeg f.data)).data = basenameSeg f.data from rfl,
    extnameOf_basenameSeg]

theorem lookup_FILE_TYPES_isSome :
    ∀ e ∈ SUPPORTED_EXTENSIONS, (lookupStr FILE_TYPES e).isSome := by
  decide

theorem isSupportedFile_mem {f : String} (h : isSupportedFile f = true) :
    extLower f ∈ SUPPORTED_EXTENSIONS :=
  of_decide_eq_true h

theorem getFileTypeConfig_isSome {f : String} (h : isSupportedFile f = true) :
    (getFileTypeConfig f).isSome :=
  lookup_FILE_TYPES_isSome _ (isSupportedFile_mem h)

theorem extractProgramInfo_isSome {f : String} (h : isSupportedFile f = true) :
    (extractProgramInfo f).isSome := by
  unfold extractProgramInfo
  cases hm : matchProgramPattern (baseNameOf f.data) with
  | none => simp [hm, isSupportedFile_mem h]
  | some caps => simp [hm]

theorem isSupportedFile_basenameSeg (f : String) :
    isSupportedFile (String.mk (basenameSeg f.data)) = isSupportedFile f := by
  unfold isSupportedFile
  rw [extLower_basenameSeg]

theorem mapGet_mapSet_self {β : Type} (m : List (String × β)) (k : String)
    (v : β) : mapGet (mapSet m k v) k = some v := by
  induction m with
  | nil => simp [mapSet, mapGet]
  | cons p rest ih =>
    by_cases h : p.1 = k
    · simp [mapSet, mapGet, h]
    · simp [mapSet, mapGet, h, ih]

theorem mapGet_mapSet_ne {β : Type} (m : List (String × β)) {k k' : String}
    (v : β) (h : k' ≠ k) : mapGet (mapSet m k v) k' = mapGet m k' := by
  induction m with
  | nil =>
    have : ¬ k = k' := fun e => h e.symm
    simp [mapSet, mapGet, this]
  | cons p rest ih =>
    by_cases hp : p.1 = k
    · subst hp
      have hq : ¬ p.1 = k' := fun e => h e.symm
      simp [mapSet, mapGet, hq]
    · simp only [mapSet, if_neg hp]
      by_cases hq : p.1 = k'
      · simp [mapGet, hq]
      · simp [mapGet, hq, ih]

theorem mapSet_keys_mem {β : Type} (m : List (String × β)) {k : String}
    (v : β) (h : k ∈ m.map Prod.fst) :
    (mapSet m k v).map Prod.fst = m.map Prod.fst := by
  induction m with
  | nil => simp at h
  | cons p rest ih =>
    by_cases hp : p.1 = k
    · simp [mapSet, hp]
    · have : k ∈ rest.map Prod.fst := by
        rcases List.mem_map.mp h with ⟨q, hq, he⟩
        rcases List.mem_cons.mp hq with hq | hq
        · exact absurd (hq ▸ he) hp
        · exact List.mem_map.mpr ⟨q, hq, he⟩
      simp [mapSet, hp, ih this]

theorem mapSet_keys_new {β : Type} (m : List (String × β)) {k : String}
    (v : β) (h : k ∉ m.map Prod.fst) :
    (mapSet m k v).map Prod.fst = m.map Prod.fst ++ [k] := by
  induction m with
  | nil => simp [mapSet]
  | cons p rest ih =>
    have hp : ¬ p.1 = k := by
      intro e
      exact h (by simp [e])
    have hrest : k ∉ rest.map Prod.fst := by
      intro hm
      exact h (by simp [hm])
    simp [mapSet, hp, ih hrest]

theorem mapSet_keys_nodup {β : Type} (m : List (String × β)) (k : String)
    (v : β) (h : (m.map Prod.fst).Nodup) :
    ((mapSet m k v).map Prod.fst).Nodup := by
  by_cases hk : k ∈ m.map Prod.fst
  · rw [mapSet_keys_mem m v hk]
    exact h
  · rw [mapSet_keys_new m v hk]
    simp [List.nodup_append, h, hk]

/-- The group key the first pass assigns to a file path (meaningful when the
file survives the supported-extension filter). -/
def pidOfFile (f : String) : String :=
  match extractProgramInfo (String.mk (basenameSeg f.data)) with
  | some i => i.programId
  | none => ""

theorem processFile_char (stats : Stats) (f : String) {info : ProgramInfo}
    {cfg : FileTypeCfg}
    (he : extractProgramInfo (String.mk (basenameSeg f.data)) = some info)
    (hc : getFileTypeConfig (String.mk (basenameSeg f.data)) = some cfg) :
    (processFile stats f).programFiles =
      mapSet stats.programFiles info.programId
        (match mapGet stats.programFiles info.programId with
         | some g =>
           { g with files :=
               g.files ++ [⟨String.mk (basenameSeg f.data), f, cfg⟩] }
         | none =>
           { programInfo := info,
             files := [⟨String.mk (basenameSeg f.data), f, cfg⟩] }) := by
  simp only [processFile, he, hc]
  split <;> rfl

theorem processFile_skip_none (stats : Stats) (f : String)
    (he : extractProgramInfo (String.mk (basenameSeg f.data)) = none) :
    (processFile stats f).programFiles = stats.programFiles := by
  simp only [processFile, he]

theorem processFile_skip_cfg (stats : Stats) (f : String) {info : ProgramInfo}
    (he : extractProgramInfo (String.mk (basenameSeg f.data)) = some info)
    (hc : getFileTypeConfig (String.mk (basenameSeg f.data)) = none) :
    (processFile stats f).programFiles = stats.programFiles := by
  simp only [processFile, he, hc]

theorem processFile_preserve {stats : Stats} {pid : String}
    {g : ProgramGroup} {x : FileRec} (f : String)
    (hg : mapGet stats.programFiles pid = some g) (hx : x ∈ g.files) :
    ∃ g', mapGet (processFile stats f).programFiles pid = some g' ∧
      x ∈ g'.files := by
  cases he : extractProgramInfo (String.mk (basenameSeg f.data)) with
  | none =>
    exact ⟨g, (processFile_skip_none stats f he).symm ▸ hg, hx⟩
  | some info =>
    cases hc : getFileTypeConfig (String.mk (basenameSeg f.data)) with
    | none =>
      exact ⟨g, (processFile_skip_cfg stats f he hc).symm ▸ hg, hx⟩
    | some cfg =>
      rw [processFile_char stats f he hc]
      by_cases hpid : pid = info.programId
      · subst hpid
        rw [hg, mapGet_mapSet_self]
        exact ⟨_, rfl, by simp [hx]⟩
      · rw [mapGet_mapSet_ne _ _ hpid, hg]
        exact ⟨g, rfl, hx⟩

theorem processFile_adds (stats : Stats) (f : String)
    (h : isSupportedFile f = true) :
    ∃ g, mapGet (processFile stats f).programFiles (pidOfFile f) = some g ∧
      ∃ r ∈ g.files, r.filePath = f := by
  have hsb : isSupportedFile (String.mk (basenameSeg f.data)) = true := by
    rw [isSupportedFile_basenameSeg]
    exact h
  rcases Option.isSome_iff_exists.mp (extractProgramInfo_isSome hsb)
    with ⟨info, he⟩
  rcases Option.isSome_iff_exists.mp (getFileTypeConfig_isSome hsb)
    with ⟨cfg, hc⟩
  have hpid : pidOfFile f = info.programId := by
    unfold pidOfFile
    rw [he]
  rw [processFile_char stats f he hc, hpid, mapGet_mapSet_self]
  refine ⟨_, rfl, ?_⟩
  cases hgo : mapGet stats.programFiles info.programId with
  | none => exact ⟨⟨String.mk (basenameSeg f.data), f, cfg⟩, by simp, rfl⟩
  | some g0 => exact ⟨⟨String.mk (basenameSeg f.data), f, cfg⟩, by simp, rfl⟩

theorem processFile_keys_nodup (stats : Stats) (f : String)
    (h : (stats.programFiles.map Prod.fst).Nodup) :
    (((processFile stats f).programFiles).map Prod.fst).Nodup := by
  cases he : extractProgramInfo (String.mk (basenameSeg f.data)) with
  | none =>
    rw [processFile_skip_none stats f he]
    exact h
  | some info =>
    cases hc : getFileTypeConfig (String.mk (basenameSeg f.data)) with
    | none =>
      rw [processFile_skip_cfg stats f he hc]
      exact h
    | some cfg =>
      rw [processFile_char stats f he hc]
      exact mapSet_keys_nodup _ _ _ h

theorem foldl_preserve (l : List String) :
    ∀ (stats : Stats) {pid : String} {g : ProgramGroup} {x : FileRec},
      mapGet stats.programFiles pid = some g → x ∈ g.files →
      ∃ g', mapGet ((l.foldl processFile stats)).programFiles pid = some g' ∧
        x ∈ g'.files := by
  induction l with
  | nil =>
    intro stats pid g x hg hx
    exact ⟨g, hg, hx⟩
  | cons f rest ih =>
    intro stats pid g x hg hx
    rcases processFile_preserve f hg hx with ⟨g1, hg1, hx1⟩
    exact ih (processFile stats f) hg1 hx1

theorem foldl_adds (l : List String) :
    ∀ (stats : Stats) (f : String), f ∈ l → isSupportedFile f = true →
      ∃ g, mapGet ((l.foldl processFile stats)).programFiles (pidOfFile f) =
          some g ∧ ∃ r ∈ g.files, r.filePath = f := by
  induction l with
  | nil => intro _ _ hf; simp at hf
  | cons f0 rest ih =>
    intro stats f hf hs
    rcases List.mem_cons.mp hf with hf | hf
    · subst hf
      rcases processFile_adds stats f hs with ⟨g, hg, r, hr, hrp⟩
      rcases foldl_preserve rest (processFile stats f) hg hr with ⟨g', hg', hr'⟩
      exact ⟨g', hg', r, hr', hrp⟩
    · exact ih (processFile stats f0) f hf hs

theorem foldl_keys_nodup (l : List String) :
    ∀ (stats : Stats), (stats.programFiles.map Prod.fst).Nodup →
      (((l.foldl processFile stats)).programFiles.map Prod.fst).Nodup := by
  induction l with
  | nil => exact fun _ h => h
  | cons f rest ih =>
    intro stats h
    exact ih (processFile stats f) (processFile_keys_nodup stats f h)

theorem pidOfFile_congr {f1 f2 : String}
    (hb : baseNameOf f1.data = baseNameOf f2.data)
    (h1 : isSupportedFile f1 = true) (h2 : isSupportedFile f2 = true) :
    pidOfFile f1 = pidOfFile f2 := by
  have e1 : extLower (String.mk (basenameSeg f1.data)) ∈ SUPPORTED_EXTENSIONS := by
    rw [extLower_basenameSeg]
    exact isSupportedFile_mem h1
  have e2 : extLower (String.mk (basenameSeg f2.data)) ∈ SUPPORTED_EXTENSIONS := by
    rw [extLower_basenameSeg]
    exact isSupportedFile_mem h2
  have hbb1 : baseNameOf (String.mk (basenameSeg f1.data)).data =
      baseNameOf f1.data := baseNameOf_basenameSeg f1.data
  have hbb2 : baseNameOf (String.mk (basenameSeg f2.data)).data =
      baseNameOf f2.data := baseNameOf_basenameSeg f2.data
  unfold pidOfFile extractProgramInfo
  rw [hbb1, hbb2, hb]
  cases hm : matchProgramPattern (baseNameOf f2.data) with
  | none => simp [hm, e1, e2, hb]
  | some caps => simp [hm]

theorem initStats_keys_nodup : ((initStats.programFiles).map Prod.fst).Nodup := by
  simp [initStats]

theorem runStats_same_group (fs : List String) (f1 f2 : String)
    (hm1 : f1 ∈ fs) (hm2 : f2 ∈ fs) (hs1 : isSupportedFile f1 = true)
    (hs2 : isSupportedFile f2 = true)
    (hb : baseNameOf f1.data = baseNameOf f2.data) :
    ∃ pid g, mapGet (runStats fs).programFiles pid = some g ∧
      (∃ r ∈ g.files, r.filePath = f1) ∧ (∃ r ∈ g.files, r.filePath = f2) := by
  have hf1 : f1 ∈ fs.filter isSupportedFile := List.mem_filter.mpr ⟨hm1, hs1⟩
  have hf2 : f2 ∈ fs.filter isSupportedFile := List.mem_filter.mpr ⟨hm2, hs2⟩
  rcases foldl_adds (fs.filter isSupportedFile) initStats f1 hf1 hs1
    with ⟨g1, hg1, r1, hr1, hrp1⟩
  rcases foldl_adds (fs.filter isSupportedFile) initStats f2 hf2 hs2
    with ⟨g2, hg2, r2, hr2, hrp2⟩
  have hpid : pidOfFile f2 = pidOfFile f1 := pidOfFile_congr hb.symm hs2 hs1
  rw [hpid] at hg2
  have : g1 = g2 := by
    have := hg1.symm.trans hg2
    exact Option.some.inj this
  subst this
  exact ⟨pidOfFile f1, g1, hg1, ⟨r1, hr1, hrp1⟩, ⟨r2, hr2, hrp2⟩⟩

theorem runStats_keys_nodup (fs : List String) :
    (((runStats fs).programFiles).map Prod.fst).Nodup :=
  foldl_keys_nodup _ initStats initStats_keys_nodup

theorem insJS_perm {α : Type} (c : α → α → Int) (x : α) (l : List α) :
    List.Perm (insJS c x l) (x :: l) := by
  induction l with
  | nil => rfl
  | cons y ys ih =>
    by_cases h : c y x ≤ 0
    · simp only [insJS, if_pos h]
      exact (ih.cons y).trans (List.Perm.swap x y ys)
    · simp [insJS, if_neg h]

theorem sortJS_perm {α : Type} (c : α → α → Int) (l : List α) :
    List.Perm (sortJS c l) l := by
  suffices h : ∀ acc : List α,
      List.Perm (l.foldl (fun a x => insJS c x a) acc) (l ++ acc) by
    simpa using h []
  induction l with
  | nil => intro acc; simp [List.Perm.refl]
  | cons y ys ih =>
    intro acc
    have h1 : List.Perm (ys.foldl (fun a x => insJS c x a) (insJS c y acc))
        (ys ++ insJS c y acc) := ih (insJS c y acc)
    have h2 : List.Perm (ys ++ insJS c y acc) (ys ++ y :: acc) :=
      List.Perm.append_left ys (insJS_perm c y acc)
    have h3 : List.Perm (ys ++ y :: acc) (y :: (ys ++ acc)) :=
      List.perm_middle
    exact (h1.trans h2).trans h3

theorem mem_sortJS {α : Type} {c : α → α → Int} {x : α} {l : List α} :
    x ∈ sortJS c l ↔ x ∈ l :=
  (sortJS_perm c l).mem_iff

theorem insJS_split {α : Type} (c : α → α → Int) (x : α) (l : List α) :
    ∃ u v, l = u ++ v ∧ insJS c x l = u ++ x :: v ∧
      (∀ y ∈ u, c y x ≤ 0) ∧ (∀ h t, v = h :: t → ¬ c h x ≤ 0) := by
  induction l with
  | nil => exact ⟨[], [], rfl, rfl, by simp, by simp⟩
  | cons y ys ih =>
    by_cases h : c y x ≤ 0
    · rcases ih with ⟨u, v, he, hi, hu, hv⟩
      refine ⟨y :: u, v, by simp [he], ?_, ?_, hv⟩
      · simp [insJS, if_pos h, hi]
      · intro z hz
        rcases List.mem_cons.mp hz with hz | hz
        · exact hz ▸ h
        · exact hu z hz
    · refine ⟨[], y :: ys, rfl, by simp [insJS, if_neg h], by simp, ?_⟩
      intro h' t' he'
      cases he'
      exact h

theorem insJS_pairwise {α : Type} {c : α → α → Int}
    (htot : ∀ a b, c a b ≤ 0 ∨ c b a ≤ 0)
    (htrans : ∀ a b d, c a b ≤ 0 → c b d ≤ 0 → c a d ≤ 0) (x : α)
    {l : List α} (hl : l.Pairwise (fun a b => c a b ≤ 0)) :
    (insJS c x l).Pairwise (fun a b => c a b ≤ 0) := by
  induction l with
  | nil => simp [insJS]
  | cons y ys ih =>
    rcases List.pairwise_cons.mp hl with ⟨hy, hys⟩
    by_cases h : c y x ≤ 0
    · simp only [insJS, if_pos h]
      refine List.pairwise_cons.mpr ⟨?_, ih hys⟩
      intro z hz
      have hz' : z ∈ x :: ys := (insJS_perm c x ys).mem_iff.mp hz
      rcases List.mem_cons.mp hz' with hz' | hz'
      · exact hz' ▸ h
      · exact hy z hz'
    · simp only [insJS, if_neg h]
      have hxy : c x y ≤ 0 := (htot x y).resolve_right h
      refine List.pairwise_cons.mpr ⟨?_, hl⟩
      intro z hz
      rcases List.mem_cons.mp hz with hz | hz
      · exact hz ▸ hxy
      · exact htrans x y z hxy (hy z hz)

theorem sortJS_pairwise {α : Type} {c : α → α → Int}
    (htot : ∀ a b, c a b ≤ 0 ∨ c b a ≤ 0)
    (htrans : ∀ a b d, c a b ≤ 0 → c b d ≤ 0 → c a d ≤ 0) (l : List α) :
    (sortJS c l).Pairwise (fun a b => c a b ≤ 0) := by
  suffices h : ∀ acc : List α, acc.Pairwise (fun a b => c a b ≤ 0) →
      (l.foldl (fun a x => insJS c x a) acc).Pairwise
        (fun a b => c a b ≤ 0) by
    exact h [] (by simp)
  induction l with
  | nil => exact fun acc h => h
  | cons x xs ih =>
    intro acc hacc
    exact ih (insJS c x acc) (insJS_pairwise htot htrans x hacc)

theorem insJS_congr {α : Type} {c c' : α → α → Int} (x : α) {l : List α}
    (h : ∀ y ∈ l, c y x = c' y x) : insJS c x l = insJS c' x l := by
  induction l with
  | nil => rfl
  | cons y ys ih =>
    have hy : c y x = c' y x := h y (by simp)
    have ih' := ih (fun z hz => h z (by simp [hz]))
    by_cases hc : c y x ≤ 0
    · rw [insJS, insJS, if_pos hc, if_pos (hy ▸ hc), ih']
    · rw [insJS, insJS, if_neg hc, if_neg (hy ▸ hc)]

theorem foldl_insJS_congr {α : Type} {c c' : α → α → Int} :
    ∀ (l acc : List α),
      (∀ y, (y ∈ acc ∨ y ∈ l) → ∀ x ∈ l, c y x = c' y x) →
      l.foldl (fun a x => insJS c x a) acc =
        l.foldl (fun a x => insJS c' x a) acc := by
  intro l
  induction l with
  | nil => intro acc _; rfl
  | cons x xs ih =>
    intro acc h
    have h1 : insJS c x acc = insJS c' x acc :=
      insJS_congr x (fun y hy => h y (Or.inl hy) x (by simp))
    have h2 : ∀ y, (y ∈ insJS c' x acc ∨ y ∈ xs) → ∀ b ∈ xs, c y b = c' y b := by
      intro y hy b hb
      rcases hy with hy | hy
      · have : y ∈ x :: acc := (insJS_perm c' x acc).mem_iff.mp hy
        rcases List.mem_cons.mp this with hz | hz
        · exact h y (Or.inr (by simp [hz])) b (by simp [hb])
        · exact h y (Or.inl hz) b (by simp [hb])
      · exact h y (Or.inr (by simp [hy])) b (by simp [hb])
    calc (x :: xs).foldl (fun a z => insJS c z a) acc
        = xs.foldl (fun a z => insJS c z a) (insJS c x acc) := rfl
      _ = xs.foldl (fun a z => insJS c' z a) (insJS c' x acc) := by
          rw [h1]; exact ih (insJS c' x acc) h2
      _ = (x :: xs).foldl (fun a z => insJS c' z a) acc := rfl

theorem sortJS_congr {α : Type} {c c' : α → α → Int} (l : List α)
    (h : ∀ a ∈ l, ∀ b ∈ l, c a b = c' a b) : sortJS c l = sortJS c' l :=
  foldl_insJS_congr l []
    (fun y hy x hx => h y (hy.resolve_left (by simp)) x hx)

theorem insJS_key_filter {α : Type} (k : α → Int) (x : α) {l : List α}
    (hl : l.Pairwise (fun a b => k a - k b ≤ 0)) (K : Int) :
    (insJS (fun a b => k a - k b) x l).filter (fun z => decide (k z = K)) =
      if k x = K then l.filter (fun z => decide (k z = K)) ++ [x]
      else l.filter (fun z => decide (k z = K)) := by
  rcases insJS_split (fun a b => k a - k b) x l with ⟨u, v, he, hi, hu, hv⟩
  have hvK : ∀ z ∈ v, ¬ k z = K ∨ ¬ k x = K := by
    intro z hz
    by_cases hxK : k x = K
    · left
      cases v with
      | nil => simp at hz
      | cons h0 t0 =>
        have hh0 : ¬ k h0 - k x ≤ 0 := hv h0 t0 rfl
        have hx0 : k x < k h0 := by omega
        have hpv : (h0 :: t0).Pairwise (fun a b => k a - k b ≤ 0) := by
          have : l.Pairwise (fun a b => k a - k b ≤ 0) := hl
          rw [he] at this
          exact (List.pairwise_append.mp this).2.1
        rcases List.mem_cons.mp hz with hz | hz
        · subst hz; omega
        · have : k h0 - k z ≤ 0 :=
            (List.pairwise_cons.mp hpv).1 z hz
          omega
    · right; exact hxK
  rw [hi, he]
  by_cases hxK : k x = K
  · rw [if_pos hxK]
    have hfv : v.filter (fun z => decide (k z = K)) = [] := by
      apply List.filter_eq_nil_iff.mpr
      intro z hz
      simpa using (hvK z hz).resolve_right (by simp [hxK])
    simp [List.filter_append, hxK, hfv]
  · rw [if_neg hxK]
    simp [List.filter_append, hxK]

theorem sortJS_key_stable {α : Type} (k : α → Int) (l : List α) (K : Int) :
    (sortJS (fun a b => k a - k b) l).filter (fun z => decide (k z = K)) =
      l.filter (fun z => decide (k z = K)) := by
  have htot : ∀ a b : α, k a - k b ≤ 0 ∨ k b - k a ≤ 0 := by
    intro a b; omega
  have htrans : ∀ a b d : α, k a - k b ≤ 0 → k b - k d ≤ 0 → k a - k d ≤ 0 := by
    intro a b d h1 h2; omega
  suffices h : ∀ (l1 acc : List α),
      acc.Pairwise (fun a b => k a - k b ≤ 0) →
      (l1.foldl (fun a x => insJS (fun a b => k a - k b) x a) acc).filter
          (fun z => decide (k z = K)) =
        acc.filter (fun z => decide (k z = K)) ++
          l1.filter (fun z => decide (k z = K)) by
    simpa using h l [] (by simp)
  intro l1
  induction l1 with
  | nil => intro acc _; simp
  | cons x xs ih =>
    intro acc hacc
    have hstep := insJS_key_filter k x hacc K
    have hacc' : (insJS (fun a b => k a - k b) x acc).Pairwise
        (fun a b => k a - k b ≤ 0) :=
      insJS_pairwise htot htrans x hacc
    calc ((x :: xs).foldl (fun a z => insJS (fun a b => k a - k b) z a)
            acc).filter (fun z => decide (k z = K))
        = (xs.foldl (fun a z => insJS (fun a b => k a - k b) z a)
            (insJS (fun a b => k a - k b) x acc)).filter
              (fun z => decide (k z = K)) := rfl
      _ = (insJS (fun a b => k a - k b) x acc).filter
            (fun z => decide (k z = K)) ++
              xs.filter (fun z => decide (k z = K)) := ih _ hacc'
      _ = acc.filter (fun z => decide (k z = K)) ++
            (x :: xs).filter (fun z => decide (k z = K)) := by
          rw [hstep]
          by_cases hxK : k x = K
          · simp [hxK]
          · simp [hxK]

theorem sorted_nodup_perm_eq {α : Type} {r : α → α → Prop} :
    ∀ {l1 l2 : List α}, List.Perm l1 l2 → l1.Pairwise r → l2.Pairwise r →
      l1.Nodup → (∀ a ∈ l1, ∀ b ∈ l1, r a b → r b a → a = b) → l1 = l2 := by
  intro l1
  induction l1 with
  | nil =>
    intro l2 hp _ _ _ _
    exact (List.Perm.nil_eq hp).symm ▸ rfl
  | cons a t1 ih =>
    intro l2 hp hs1 hs2 hnd hanti
    have ha2 : a ∈ l2 := hp.mem_iff.mp (by simp)
    rcases List.append_of_mem ha2 with ⟨u, v, he⟩
    subst he
    have hu : u = [] := by
      cases u with
      | nil => rfl
      | cons x u' =>
        exfalso
        have hx1 : x ∈ a :: t1 := hp.mem_iff.mpr (by simp)
        have hrxa : r x a := by
          have := (List.pairwise_append.mp hs2).2.2
          exact this x (by simp) a (by simp)
        have hxa : x = a := by
          rcases List.mem_cons.mp hx1 with hx | hx
          · exact hx
          · have hrax : r a x := (List.pairwise_cons.mp hs1).1 x hx
            exact hanti x (by simp [hx]) a (by simp) hrxa hrax
        subst hxa
        have hnd2 : (x :: (u' ++ x :: v)).Nodup := hp.nodup hnd
        have : x ∈ u' ++ x :: v := by simp
        exact (List.nodup_cons.mp hnd2).1 this
    subst hu
    simp only [List.nil_append] at hp hs2 ⊢
    have hp' : List.Perm t1 v := hp.cons_inv
    have ht1 : t1 = v := by
      apply ih hp' (List.pairwise_cons.mp hs1).2 (List.pairwise_cons.mp hs2).2
        (List.nodup_cons.mp hnd).2
      intro x hx y hy hxy hyx
      exact hanti x (by simp [hx]) y (by simp [hy]) hxy hyx
    rw [ht1]

theorem char_eq_of_toNat_eq {a b : Char} (h : a.toNat = b.toNat) : a = b := by
  unfold Char.toNat at h
  apply Char.eq_of_val_eq
  exact UInt32.toNat.inj h

theorem string_eq_of_data_eq {a b : String} (h : a.data = b.data) : a = b := by
  cases a
  cases b
  simp only at h
  rw [h]

theorem cmpCharList_swap : ∀ a b : List Char,
    cmpCharList a b = -(cmpCharList b a) := by
  intro a
  induction a with
  | nil =>
    intro b
    cases b <;> simp [cmpCharList]
  | cons x xs ih =>
    intro b
    cases b with
    | nil => simp [cmpCharList]
    | cons y ys =>
      by_cases h1 : x.toNat < y.toNat
      · have h2 : ¬ y.toNat < x.toNat := by omega
        simp [cmpCharList, h1, h2]
      · by_cases h2 : y.toNat < x.toNat
        · simp [cmpCharList, h1, h2]
        · simp [cmpCharList, h1, h2, ih ys]

theorem cmpCharList_eq_zero_iff : ∀ a b : List Char,
    cmpCharList a b = 0 ↔ a = b := by
  intro a
  induction a with
  | nil =>
    intro b
    cases b <;> simp [cmpCharList]
  | cons x xs ih =>
    intro b
    cases b with
    | nil => simp [cmpCharList]
    | cons y ys =>
      by_cases h1 : x.toNat < y.toNat
      · have hne : x ≠ y := by
          intro e
          rw [e] at h1
          omega
        simp [cmpCharList, h1, hne]
      · by_cases h2 : y.toNat < x.toNat
        · have hne : x ≠ y := by
            intro e
            rw [e] at h2
            omega
          simp [cmpCharList, h1, h2, hne]
        · have hxy : x = y := char_eq_of_toNat_eq (by omega)
          simp [cmpCharList, h1, h2, ih ys, hxy]

theorem cmpCharList_trans : ∀ a b d : List Char,
    cmpCharList a b ≤ 0 → cmpCharList b d ≤ 0 → cmpCharList a d ≤ 0 := by
  intro a
  induction a with
  | nil =>
    intro b d _ _
    cases d <;> simp [cmpCharList]
  | cons x xs ih =>
    intro b d h1 h2
    cases b with
    | nil =>
      simp [cmpCharList] at h1
    | cons y ys =>
      cases d with
      | nil => simp [cmpCharList] at h2
      | cons z zs =>
        by_cases hxy : x.toNat < y.toNat
        · by_cases hyz : y.toNat < z.toNat
          · have : x.toNat < z.toNat := by omega
            simp [cmpCharList, this]
          · by_cases hzy : z.toNat < y.toNat
            · simp [cmpCharList, hyz, hzy] at h2
            · have : x.toNat < z.toNat := by omega
              simp [cmpCharList, this]
        · by_cases hyx : y.toNat < x.toNat
          · simp [cmpCharList, hxy, hyx] at h1
          · by_cases hyz : y.toNat < z.toNat
            · have : x.toNat < z.toNat := by omega
              simp [cmpCharList, this]
            · by_cases hzy : z.toNat < y.toNat
              · simp [cmpCharList, hyz, hzy] at h2
              · have hxz : ¬ x.toNat < z.toNat := by omega
                have hzx : ¬ z.toNat < x.toNat := by omega
                simp only [cmpCharList, if_neg hxy, if_neg hyx] at h1
                simp only [cmpCharList, if_neg hyz, if_neg hzy] at h2
                simp only [cmpCharList, if_neg hxz, if_neg hzx]
                exact ih ys zs h1 h2

theorem strCmp_total (a b : String) : strCmp a b ≤ 0 ∨ strCmp b a ≤ 0 := by
  unfold strCmp
  rw [cmpCharList_swap b.data a.data]
  omega

theorem strCmp_trans (a b d : String) (h1 : strCmp a b ≤ 0)
    (h2 : strCmp b d ≤ 0) : strCmp a d ≤ 0 :=
  cmpCharList_trans a.data b.data d.data h1 h2

theorem strCmp_antisymm (a b : String) (h1 : strCmp a b ≤ 0)
    (h2 : strCmp b a ≤ 0) : a = b := by
  unfold strCmp at h1 h2
  rw [cmpCharList_swap b.data a.data] at h2
  have h0 : cmpCharList a.data b.data = 0 := by omega
  exact string_eq_of_data_eq ((cmpCharList_eq_zero_iff a.data b.data).mp h0)

theorem sortJS_strCmp_eq_of_perm {v1 v2 : List String}
    (hp : List.Perm v1 v2) (hnd : v1.Nodup) :
    sortJS strCmp v1 = sortJS strCmp v2 := by
  apply sorted_nodup_perm_eq
    (r := fun a b : String => strCmp a b ≤ 0)
  · exact ((sortJS_perm strCmp v1).trans hp).trans (sortJS_perm strCmp v2).symm
  · exact sortJS_pairwise strCmp_total strCmp_trans v1
  · exact sortJS_pairwise strCmp_total strCmp_trans v2
  · exact (sortJS_perm strCmp v1).symm.nodup hnd
  · intro a _ b _ hab hba
    exact strCmp_antisymm a b hab hba

/-- The numeric value JS parseInt gives a chapter key (0 in place of NaN,
used only where every key is numeric). -/
def pkOf (s : String) : Int :=
  (jsParseInt s).getD 0

theorem cmpChapters_eq_key {a b : String} (ha : (jsParseInt a).isSome)
    (hb : (jsParseInt b).isSome) : cmpChapters a b = pkOf a - pkOf b := by
  rcases Option.isSome_iff_exists.mp ha with ⟨x, hx⟩
  rcases Option.isSome_iff_exists.mp hb with ⟨y, hy⟩
  simp [cmpChapters, pkOf, hx, hy]

theorem sortJS_numeric_keys_eq {k1 k2 : List String}
    (hp : List.Perm k1 k2) (hnd : k1.Nodup)
    (hnum : ∀ k ∈ k1, (jsParseInt k).isSome)
    (hinj : ∀ k ∈ k1, ∀ k' ∈ k1, jsParseInt k = jsParseInt k' → k = k') :
    sortJS cmpChapters k1 = sortJS cmpChapters k2 := by
  have hnum2 : ∀ k ∈ k2, (jsParseInt k).isSome :=
    fun k hk => hnum k (hp.mem_iff.mpr hk)
  have h1 : sortJS cmpChapters k1 = sortJS (fun a b => pkOf a - pkOf b) k1 :=
    sortJS_congr k1 (fun a ha b hb => cmpChapters_eq_key (hnum a ha) (hnum b hb))
  have h2 : sortJS cmpChapters k2 = sortJS (fun a b => pkOf a - pkOf b) k2 :=
    sortJS_congr k2
      (fun a ha b hb => cmpChapters_eq_key (hnum2 a ha) (hnum2 b hb))
  rw [h1, h2]
  have htot : ∀ a b : String, pkOf a - pkOf b ≤ 0 ∨ pkOf b - pkOf a ≤ 0 := by
    intro a b
    omega
  have htrans : ∀ a b d : String,
      pkOf a - pkOf b ≤ 0 → pkOf b - pkOf d ≤ 0 → pkOf a - pkOf d ≤ 0 := by
    intro a b d hab hbd
    omega
  apply sorted_nodup_perm_eq (r := fun a b : String => pkOf a - pkOf b ≤ 0)
  · exact ((sortJS_perm _ k1).trans hp).trans (sortJS_perm _ k2).symm
  · exact sortJS_pairwise htot htrans k1
  · exact sortJS_pairwise htot htrans k2
  · exact (sortJS_perm _ k1).symm.nodup hnd
  · intro a ha b hb hab hba
    have ha1 : a ∈ k1 := mem_sortJS.mp ha
    have hb1 : b ∈ k1 := mem_sortJS.mp hb
    have hk : pkOf a = pkOf b := by omega
    rcases Option.isSome_iff_exists.mp (hnum a ha1) with ⟨x, hx⟩
    rcases Option.isSome_iff_exists.mp (hnum b hb1) with ⟨y, hy⟩
    apply hinj a ha1 b hb1
    rw [hx, hy]
    simp [pkOf, hx, hy] at hk
    rw [hk]

theorem sidebarCategories_content_eq (m1 m2 : List (String × List String))
    (hk : List.Perm (m1.map Prod.fst) (m2.map Prod.fst))
    (hnd : (m1.map Prod.fst).Nodup)
    (hv : ∀ k ∈ m1.map Prod.fst,
      List.Perm ((mapGet m1 k).getD []) ((mapGet m2 k).getD []) ∧
        ((mapGet m1 k).getD []).Nodup)
    (hnum : ∀ k ∈ m1.map Prod.fst, (jsParseInt k).isSome)
    (hinj : ∀ k ∈ m1.map Prod.fst, ∀ k' ∈ m1.map Prod.fst,
      jsParseInt k = jsParseInt k' → k = k') :
    sidebarCategories m1 = sidebarCategories m2 := by
  unfold sidebarCategories
  rw [← sortJS_numeric_keys_eq hk hnd hnum hinj]
  apply List.map_congr_left
  intro ch hch
  have hch1 : ch ∈ m1.map Prod.fst := mem_sortJS.mp hch
  rcases hv ch hch1 with ⟨hvp, hvnd⟩
  rw [sortJS_strCmp_eq_of_perm hvp hvnd]

theorem matchCIcap_sound :
    ∀ (lit s cap rest : List Char), matchCIcap lit s = some (cap, rest) →
      s = cap ++ rest ∧ cap.map Char.toLower = lit := by
  intro lit
  induction lit with
  | nil =>
    intro s cap rest h
    simp [matchCIcap] at h
    rcases h with ⟨h1, h2⟩
    subst h1
    subst h2
    simp
  | cons p ps ih =>
    intro s cap rest h
    cases s with
    | nil => simp [matchCIcap] at h
    | cons c cs =>
      by_cases hc : c.toLower = p
      · simp only [matchCIcap, if_pos hc] at h
        cases hm : matchCIcap ps cs with
        | none => rw [hm] at h; simp at h
        | some pr =>
          rcases pr with ⟨cap', rest'⟩
          rw [hm] at h
          simp at h
          rcases h with ⟨h1, h2⟩
          rcases ih cs cap' rest' hm with ⟨he, hl⟩
          subst h1
          subst h2
          constructor
          · simp [he]
          · simp [hl, hc]
      · simp [matchCIcap, if_neg hc] at h

theorem matchTailAnch_sound {c t r : List Char} {caps : PatCaps}
    (h : matchTailAnch c t r = some caps) :
    caps.chapter = c ∧ caps.type = t ∧ r = caps.number ++ caps.variant := by
  unfold matchTailAnch at h
  by_cases hn : (r.takeWhile Char.isDigit).isEmpty
  · simp [hn] at h
  · simp only [hn, if_false, Bool.false_eq_true] at h
    cases hr2 : r.dropWhile Char.isDigit with
    | nil =>
      rw [hr2] at h
      have hcaps := Option.some.inj h
      subst hcaps
      refine ⟨rfl, rfl, ?_⟩
      simp only []
      rw [List.append_nil]
      conv_lhs => rw [← List.takeWhile_append_dropWhile (p := Char.isDigit) (l := r)]
      rw [hr2, List.append_nil]
    | cons ch rest =>
      rw [hr2] at h
      by_cases hch : isAsciiLetterChar ch = true
      · simp only [hch, if_true] at h
        by_cases hr3 : (rest.dropWhile Char.isDigit).isEmpty
        · simp only [hr3, if_true] at h
          have hcaps := Option.some.inj h
          subst hcaps
          refine ⟨rfl, rfl, ?_⟩
          simp only []
          have hrest : rest = rest.takeWhile Char.isDigit := by
            conv_lhs => rw [← List.takeWhile_append_dropWhile
              (p := Char.isDigit) (l := rest)]
            rw [List.isEmpty_iff.mp hr3, List.append_nil]
          conv_lhs => rw [← List.takeWhile_append_dropWhile
            (p := Char.isDigit) (l := r)]
          rw [hr2, ← hrest]
        · simp [hr3] at h
      · simp [hch] at h

theorem matchProgramPattern_decomp {s : List Char} {caps : PatCaps}
    (h : matchProgramPattern s = some caps) :
    ∃ pre, s = pre ++ caps.chapter ++ caps.type ++ caps.number ++
        caps.variant ∧
      pre.map Char.toLower = "chapt".data ∧
      (caps.type.map Char.toLower = "exercise".data ∨
        caps.type.map Char.toLower = "fig".data) := by
  unfold matchProgramPattern at h
  cases hch : matchCIcap "chapt".data s with
  | none => rw [hch] at h; simp at h
  | some pr =>
    rcases pr with ⟨pre, r1⟩
    rw [hch] at h
    simp only [] at h
    rcases matchCIcap_sound _ _ _ _ hch with ⟨hs, hpre⟩
    by_cases hc : (r1.takeWhile Char.isDigit).isEmpty
    · simp [hc] at h
    · simp only [hc, if_false, Bool.false_eq_true] at h
      have hr1 : r1 = r1.takeWhile Char.isDigit ++ r1.dropWhile Char.isDigit :=
        (List.takeWhile_append_dropWhile (p := Char.isDigit) (l := r1)).symm
      cases hex : matchCIcap "exercise".data (r1.dropWhile Char.isDigit) with
      | some prt =>
        rcases prt with ⟨t, r3⟩
        rw [hex] at h
        rcases matchCIcap_sound _ _ _ _ hex with ⟨hr2, ht⟩
        rcases matchTailAnch_sound h with ⟨hcc, hct, hr3⟩
        refine ⟨pre, ?_, hpre, Or.inl (hct ▸ ht)⟩
        rw [hs, hr1, hr2, hr3, hcc, hct]
        simp
      | none =>
        rw [hex] at h
        cases hfg : matchCIcap "fig".data (r1.dropWhile Char.isDigit) with
        | none => rw [hfg] at h; simp at h
        | some prt =>
          rcases prt with ⟨t, r3⟩
          rw [hfg] at h
          rcases matchCIcap_sound _ _ _ _ hfg with ⟨hr2, ht⟩
          rcases matchTailAnch_sound h with ⟨hcc, hct, hr3⟩
          refine ⟨pre, ?_, hpre, Or.inr (hct ▸ ht)⟩
          rw [hs, hr1, hr2, hr3, hcc, hct]
          simp

theorem processFile_skipped_supported (stats : Stats) (f : String)
    (h : isSupportedFile f = true) :
    (processFile stats f).skipped = stats.skipped := by
  have hsb : isSupportedFile (String.mk (basenameSeg f.data)) = true := by
    rw [isSupportedFile_basenameSeg]
    exact h
  rcases Option.isSome_iff_exists.mp (extractProgramInfo_isSome hsb)
    with ⟨info, he⟩
  rcases Option.isSome_iff_exists.mp (getFileTypeConfig_isSome hsb)
    with ⟨cfg, hc⟩
  simp only [processFile, he, hc]
  split <;> rfl

theorem foldl_skipped (l : List String) :
    ∀ stats : Stats, (∀ f ∈ l, isSupportedFile f = true) →
      (l.foldl processFile stats).skipped = stats.skipped := by
  induction l with
  | nil => intro stats _; rfl
  | cons f rest ih =>
    intro stats hall
    have h1 := processFile_skipped_supported stats f (hall f (by simp))
    have h2 := ih (processFile stats f) (fun g hg => hall g (by simp [hg]))
    calc (List.foldl processFile stats (f :: rest)).skipped
        = (List.foldl processFile (processFile stats f) rest).skipped := rfl
      _ = (processFile stats f).skipped := h2
      _ = stats.skipped := h1

theorem filter_self_idem {α : Type} (p : α → Bool) (l : List α) :
    (l.filter p).filter p = l.filter p := by
  induction l with
  | nil => rfl
  | cons x xs ih =>
    by_cases h : p x
    · simp [List.filter, h, ih]
    · simp only [List.filter]
      rw [Bool.eq_false_iff.mpr h]
      exact ih

theorem runStats_skipped_zero (fs : List String) : (runStats fs).skipped = 0 := by
  unfold runStats collectFiles
  rw [foldl_skipped (fs.filter isSupportedFile) initStats
    (fun f hf => (List.mem_filter.mp hf).2)]
  rfl

theorem runStats_filter_eq (fs : List String) :
    runStats fs = runStats (fs.filter isSupportedFile) := by
  unfold runStats
  rw [filter_self_idem]

theorem mapGet_mapSet_cases {β : Type} {m : List (String × β)}
    {k pid : String} {v g : β}
    (h : mapGet (mapSet m k v) pid = some g) :
    (pid = k ∧ g = v) ∨ mapGet m pid = some g := by
  by_cases hp : pid = k
  · subst hp
    rw [mapGet_mapSet_self] at h
    exact Or.inl ⟨rfl, (Option.some.inj h).symm⟩
  · rw [mapGet_mapSet_ne _ _ hp] at h
    exact Or.inr h

theorem processFile_recs (stats : Stats) (f : String) (l0 : List String)
    (hst : ∀ pid g, mapGet stats.programFiles pid = some g →
      ∀ r ∈ g.files, r.filePath ∈ l0)
    (hf : f ∈ l0) :
    ∀ pid g, mapGet (processFile stats f).programFiles pid = some g →
      ∀ r ∈ g.files, r.filePath ∈ l0 := by
  intro pid g hg r hr
  cases he : extractProgramInfo (String.mk (basenameSeg f.data)) with
  | none =>
    rw [processFile_skip_none stats f he] at hg
    exact hst pid g hg r hr
  | some info =>
    cases hc : getFileTypeConfig (String.mk (basenameSeg f.data)) with
    | none =>
      rw [processFile_skip_cfg stats f he hc] at hg
      exact hst pid g hg r hr
    | some cfg =>
      rw [processFile_char stats f he hc] at hg
      rcases mapGet_mapSet_cases hg with ⟨hpid, hgv⟩ | hold
      · subst hgv
        cases hgo : mapGet stats.programFiles info.programId with
        | none =>
          rw [hgo] at hr
          simp at hr
          rw [hr]
          exact hf
        | some g0 =>
          rw [hgo] at hr
          simp at hr
          rcases hr with hr | hr
          · exact hst info.programId g0 hgo r hr
          · rw [hr]
            exact hf
      · exact hst pid g hold r hr

theorem foldl_recs (l : List String) (l0 : List String) :
    ∀ stats : Stats, (∀ f ∈ l, f ∈ l0) →
      (∀ pid g, mapGet stats.programFiles pid = some g →
        ∀ r ∈ g.files, r.filePath ∈ l0) →
      ∀ pid g, mapGet ((l.foldl processFile stats)).programFiles pid = some g →
        ∀ r ∈ g.files, r.filePath ∈ l0 := by
  induction l with
  | nil => intro stats _ hst; exact hst
  | cons f rest ih =>
    intro stats hall hst
    exact ih (processFile stats f) (fun x hx => hall x (by simp [hx]))
      (processFile_recs stats f l0 hst (hall f (by simp)))

theorem runStats_recs_supported (fs : List String) :
    ∀ pid g, mapGet (runStats fs).programFiles pid = some g →
      ∀ r ∈ g.files, isSupportedFile r.filePath = true := by
  intro pid g hg r hr
  have := foldl_recs (fs.filter isSupportedFile) (fs.filter isSupportedFile)
    initStats (fun f hf => hf) (by intro pid g h; simp [initStats, mapGet] at h)
    pid g hg r hr
  exact (List.mem_filter.mp this).2

theorem extractProgramInfo_fallback (f : String)
    (hs : isSupportedFile f = true)
    (hm : matchProgramPattern (baseNameOf f.data) = none) :
    extractProgramInfo f =
      some { programId := String.mk (baseNameOf f.data),
             chapter := "utilities", chapterNum := "utilities",
             type := "Utility", number := "", variant := "",
             displayName := String.mk (baseNameOf f.data),
             chapterDisplay := 99, isUtility := true } := by
  unfold extractProgramInfo
  simp only [hm, isSupportedFile_mem hs, if_true]

theorem memberRank_total (a b : FileRec) :
    memberRank a - memberRank b ≤ 0 ∨ memberRank b - memberRank a ≤ 0 := by
  omega

theorem memberRank_trans (a b d : FileRec)
    (h1 : memberRank a - memberRank b ≤ 0)
    (h2 : memberRank b - memberRank d ≤ 0) :
    memberRank a - memberRank d ≤ 0 := by
  omega

/-- C1: Grouping is extension-insensitive. For the input set
Chapt5Exercise5.m / .pdf / .tex / .html the grouping pass produces exactly one
program group, keyed by programId "Chapt5Exercise5", containing exactly those
four member files; and in general any two supported files of a run whose base
names (name minus extension) are identical are placed in one and the same
group (the group map's keys are duplicate-free, so the group is single). -/
theorem c1_grouping_extension_insensitive :
    ((((runStats ["Chapt5Exercise5.m", "Chapt5Exercise5.pdf",
        "Chapt5Exercise5.tex", "Chapt5Exercise5.html"]).programFiles).map
        (fun p => (p.1, p.2.files.map (fun r => r.filePath)))) =
      [("Chapt5Exercise5",
        ["Chapt5Exercise5.m", "Chapt5Exercise5.pdf", "Chapt5Exercise5.tex",
          "Chapt5Exercise5.html"])]) ∧
    ∀ (fs : List String) (f1 f2 : String), f1 ∈ fs → f2 ∈ fs →
      isSupportedFile f1 = true → isSupportedFile f2 = true →
      baseNameOf f1.data = baseNameOf f2.data →
      (((runStats fs).programFiles).map Prod.fst).Nodup ∧
      ∃ pid g, mapGet (runStats fs).programFiles pid = some g ∧
        (∃ r ∈ g.files, r.filePath = f1) ∧ ∃ r ∈ g.files, r.filePath = f2 := by
  constructor
  · decide
  · intro fs f1 f2 h1 h2 hs1 hs2 hb
    exact ⟨runStats_keys_nodup fs,
      runStats_same_group fs f1 f2 h1 h2 hs1 hs2 hb⟩

/-- C1 witness: the grouping theorem applied to the concrete pair
Chapt2Fig3a.m / Chapt2Fig3a.pdf. -/
theorem c1_witness :
    (isSupportedFile "Chapt2Fig3a.m" = true ∧
      isSupportedFile "Chapt2Fig3a.pdf" = true ∧
      baseNameOf "Chapt2Fig3a.m".data = baseNameOf "Chapt2Fig3a.pdf".data) ∧
    ((((runStats ["Chapt2Fig3a.m", "Chapt2Fig3a.pdf"]).programFiles).map
        Prod.fst).Nodup ∧
      ∃ pid g,
        mapGet (runStats ["Chapt2Fig3a.m", "Chapt2Fig3a.pdf"]).programFiles
            pid = some g ∧
          (∃ r ∈ g.files, r.filePath = "Chapt2Fig3a.m") ∧
          ∃ r ∈ g.files, r.filePath = "Chapt2Fig3a.pdf") :=
  ⟨⟨by decide, by decide, by decide⟩,
    c1_grouping_extension_insensitive.2 ["Chapt2Fig3a.m", "Chapt2Fig3a.pdf"]
      "Chapt2Fig3a.m" "Chapt2Fig3a.pdf" (by decide) (by decide) (by decide)
      (by decide) (by decide)⟩

/-- C2 (amended): A supported-extension file whose base name does not match
the naming grammar always classifies as a Utility-kind identity with programId
equal to the base name and chapter key "utilities" — it is never null and
never dropped. However the utilities category is NOT always placed after the
numeric chapters in the navigation index: the sidebar's chapter comparator
turns every comparison against the non-numeric "utilities" key into a tie
(parseInt gives NaN, coerced to 0), so the stable sort leaves the utilities
category at its insertion position, as the two-category maps in both
insertion orders show. -/
theorem c2_utility_fallback (f : String) (hs : isSupportedFile f = true)
    (hm : matchProgramPattern (baseNameOf f.data) = none) :
    extractProgramInfo f =
      some { programId := String.mk (baseNameOf f.data),
             chapter := "utilities", chapterNum := "utilities",
             type := "Utility", number := "", variant := "",
             displayName := String.mk (baseNameOf f.data),
             chapterDisplay := 99, isUtility := true } ∧
    ((sidebarCategories [("utilities", ["fermi"]),
        ("3", ["Chapt3Exercise10"])]).map (fun c => c.label) =
      ["Ch NaN: Utility Functions", "Ch 3: Quantum Wells and Barriers"]) ∧
    ((sidebarCategories [("3", ["Chapt3Exercise10"]),
        ("utilities", ["fermi"])]).map (fun c => c.label) =
      ["Ch 3: Quantum Wells and Barriers", "Ch NaN: Utility Functions"]) :=
  ⟨extractProgramInfo_fallback f hs hm, by decide, by decide⟩

/-- C2 witness: the theorem applied to the concrete file fermi.m. -/
theorem c2_witness :
    (isSupportedFile "fermi.m" = true ∧
      matchProgramPattern (baseNameOf "fermi.m".data) = none) ∧
    extractProgramInfo "fermi.m" =
      some { programId := String.mk (baseNameOf "fermi.m".data),
             chapter := "utilities", chapterNum := "utilities",
             type := "Utility", number := "", variant := "",
             displayName := String.mk (baseNameOf "fermi.m".data),
             chapterDisplay := 99, isUtility := true } :=
  ⟨⟨by decide, by decide⟩,
    (c2_utility_fallback "fermi.m" (by decide) (by decide)).1⟩

/-- C2 counterexample: with fermi.m enumerated before Chapt3Exercise10.m the
generated navigation index places the utilities category BEFORE the numeric
chapter-3 category, refuting the claim that the utilities category is always
placed after every numeric chapter category. -/
theorem c2_counterexample :
    sidebarCategories
        ((runStats ["fermi.m", "Chapt3Exercise10.m"]).byChapter) =
      [ { label := "Ch NaN: Utility Functions",
          items := [{ id := "chapterutilities/fermi/index",
                      label := "fermi" }] },
        { label := "Ch 3: Quantum Wells and Barriers",
          items := [{ id := "chapter3/Chapt3Exercise10/index",
                      label := "Exercise 10" }] } ] := by decide

/-- C3 counterexample: the base name Chapt2Fig3A (uppercase variant letter)
DOES match the pattern — the i flag makes the variant class case-insensitive —
so the file is classified as a chapter program (isUtility = false) and not as
the claimed Utility fallback. -/
theorem c3_counterexample :
    extractProgramInfo "Chapt2Fig3A.pdf" =
      some { programId := "Chapt2Fig3A", chapter := "chapter2",
             chapterNum := "2", type := "Fig", number := "3", variant := "A",
             displayName := "Chapter 2 - Fig 3A", chapterDisplay := 2,
             isUtility := false } := by decide

/-- C3 (amended): case-insensitivity applies to the whole pattern, including
the variant letter: for every uppercase ASCII letter the base name
Chapt2Fig3<letter> matches and classifies as a chapter program whose
programId and variant keep the uppercase letter verbatim; the display label
upper-cases the (already uppercase) variant. -/
theorem c3_uppercase_variant_matches (c : Char)
    (h : c ∈ ['A', 'B', 'C', 'D', 'E', 'F', 'G', 'H', 'I', 'J', 'K', 'L',
      'M', 'N', 'O', 'P', 'Q', 'R', 'S', 'T', 'U', 'V', 'W', 'X', 'Y', 'Z']) :
    extractProgramInfo ("Chapt2Fig3" ++ String.singleton c ++ ".pdf") =
      some { programId := "Chapt2Fig3" ++ String.singleton c,
             chapter := "chapter2", chapterNum := "2", type := "Fig",
             number := "3", variant := String.singleton c,
             displayName := "Chapter 2 - Fig 3" ++
               jsToUpper (String.singleton c),
             chapterDisplay := 2, isUtility := false } := by
  have hall : ∀ x ∈ ['A', 'B', 'C', 'D', 'E', 'F', 'G', 'H', 'I', 'J', 'K',
      'L', 'M', 'N', 'O', 'P', 'Q', 'R', 'S', 'T', 'U', 'V', 'W', 'X', 'Y',
      'Z'],
      extractProgramInfo ("Chapt2Fig3" ++ String.singleton x ++ ".pdf") =
        some { programId := "Chapt2Fig3" ++ String.singleton x,
               chapter := "chapter2", chapterNum := "2", type := "Fig",
               number := "3", variant := String.singleton x,
               displayName := "Chapter 2 - Fig 3" ++
                 jsToUpper (String.singleton x),
               chapterDisplay := 2, isUtility := false } := by decide
  exact hall c h

/-- C3 witness: the amended theorem applied at the concrete letter A. -/
theorem c3_witness :
    ('A' ∈ ['A', 'B', 'C', 'D', 'E', 'F', 'G', 'H', 'I', 'J', 'K', 'L', 'M',
      'N', 'O', 'P', 'Q', 'R', 'S', 'T', 'U', 'V', 'W', 'X', 'Y', 'Z']) ∧
    extractProgramInfo ("Chapt2Fig3" ++ String.singleton 'A' ++ ".pdf") =
      some { programId := "Chapt2Fig3" ++ String.singleton 'A',
             chapter := "chapter2", chapterNum := "2", type := "Fig",
             number := "3", variant := String.singleton 'A',
             displayName := "Chapter 2 - Fig 3" ++
               jsToUpper (String.singleton 'A'),
             chapterDisplay := 2, isUtility := false } :=
  ⟨by decide, c3_uppercase_variant_matches 'A' (by decide)⟩

/-- C4 counterexample: classifying chapt5exercise5a yields programId
"Chapt5exercise5a" — the matched discriminator casing is kept verbatim, not
normalized to the canonical "Exercise" — refuting the claimed normalization
(the display label does end in "5A" as claimed). -/
theorem c4_counterexample :
    ((extractProgramInfo "chapt5exercise5a").map
      (fun i => (i.programId, i.displayName)) =
      some ("Chapt5exercise5a", "Chapter 5 - exercise 5A")) ∧
    ("Chapt5exercise5a" ≠ "Chapt5Exercise5a") := by decide

/-- C4 (amended): on a match the programId is rebuilt as the literal "Chapt"
followed by the captured chapter, discriminator, number and variant exactly
as they appear in the base name: the captures are verbatim substrings (the
base name decomposes as a case-variant of "chapt" followed by the four
groups, the discriminator being a case-variant of "exercise" or "fig"), no
casing normalization is applied to discriminator or variant, and the variant
is upper-cased only in the display label. -/
theorem c4_programId_verbatim (s : List Char) (caps : PatCaps)
    (h : matchProgramPattern s = some caps) :
    (∃ pre, s = pre ++ caps.chapter ++ caps.type ++ caps.number ++
        caps.variant ∧
      pre.map Char.toLower = "chapt".data ∧
      (caps.type.map Char.toLower = "exercise".data ∨
        caps.type.map Char.toLower = "fig".data)) ∧
    ∀ f : String, baseNameOf f.data = s →
      extractProgramInfo f =
        some { programId := "Chapt" ++ String.mk caps.chapter ++
                 String.mk caps.type ++ String.mk caps.number ++
                 String.mk caps.variant,
               chapter := "chapter" ++ String.mk caps.chapter,
               chapterNum := String.mk caps.chapter,
               type := String.mk caps.type,
               number := String.mk caps.number,
               variant := String.mk caps.variant,
               displayName := "Chapter " ++ String.mk caps.chapter ++ " - " ++
                 String.mk caps.type ++ " " ++ String.mk caps.number ++
                 (if String.mk caps.variant = "" then ""
                  else jsToUpper (String.mk caps.variant)),
               chapterDisplay := digitsToNat caps.chapter,
               isUtility := false } := by
  refine ⟨matchProgramPattern_decomp h, ?_⟩
  intro f hf
  unfold extractProgramInfo
  simp only [hf, h]

/-- C4 witness: the amended theorem applied to the concrete base name
chapt2FIG7b. -/
theorem c4_witness :
    (matchProgramPattern "chapt2FIG7b".data =
      some ⟨['2'], ['F', 'I', 'G'], ['7'], ['b']⟩) ∧
    (∃ pre, "chapt2FIG7b".data = pre ++ ['2'] ++ ['F', 'I', 'G'] ++ ['7'] ++
        ['b'] ∧
      pre.map Char.toLower = "chapt".data ∧
      ((['F', 'I', 'G'] : List Char).map Char.toLower = "exercise".data ∨
        (['F', 'I', 'G'] : List Char).map Char.toLower = "fig".data)) :=
  ⟨by decide,
    (c4_programId_verbatim "chapt2FIG7b".data ⟨['2'], ['F', 'I', 'G'], ['7'],
      ['b']⟩ (by decide)).1⟩

/-- C5 counterexample: with the unsupported file notes.xyz present the run's
skipped counter stays 0 — the one unsupported input is not recorded as
skipped, refuting the claim that the skipped count includes every
unsupported-extension file. -/
theorem c5_counterexample :
    ((runStats ["notes.xyz", "Chapt1Exercise8.m"]).skipped = 0) ∧
    (isSupportedFile "notes.xyz" = false) ∧
    ((["notes.xyz", "Chapt1Exercise8.m"].filter
      (fun f => !(isSupportedFile f))).length = 1) := by decide

/-- C5 (amended): files with unsupported extensions are removed by the
pre-filter before the per-file loop: they are not recorded in the skipped
statistic (which stays 0 in the grouping pass), they never appear among any
group's member files, and the run's outcome equals the run on just the
supported files — processing continues with the remaining files. -/
theorem c5_unsupported_prefiltered (fs : List String) (f : String)
    (h : isSupportedFile f = false) :
    (runStats fs).skipped = 0 ∧
    runStats fs = runStats (fs.filter isSupportedFile) ∧
    ∀ pid g, mapGet (runStats fs).programFiles pid = some g →
      ∀ r ∈ g.files, r.filePath ≠ f := by
  refine ⟨runStats_skipped_zero fs, runStats_filter_eq fs, ?_⟩
  intro pid g hg r hr he
  have hsup := runStats_recs_supported fs pid g hg r hr
  rw [he, h] at hsup
  exact Bool.false_ne_true hsup

/-- C5 witness: the amended theorem applied to the concrete unsupported
file notes.xyz. -/
theorem c5_witness :
    (isSupportedFile "notes.xyz" = false) ∧
    ((runStats ["notes.xyz", "Chapt1Exercise8.m"]).skipped = 0 ∧
      runStats ["notes.xyz", "Chapt1Exercise8.m"] =
        runStats (["notes.xyz", "Chapt1Exercise8.m"].filter isSupportedFile) ∧
      ∀ pid g,
        mapGet (runStats ["notes.xyz", "Chapt1Exercise8.m"]).programFiles
            pid = some g →
          ∀ r ∈ g.files, r.filePath ≠ "notes.xyz") :=
  ⟨by decide,
    c5_unsupported_prefiltered ["notes.xyz", "Chapt1Exercise8.m"] "notes.xyz"
      (by decide)⟩

/-- C6 counterexample: two same-type members (reachable, since base names
differing only in the casing of the Chapt prefix map to one programId) keep
discovery order on the index page — ["chapt5Exercise5.m", "CHAPT5Exercise5.m"]
— although "CHAPT5Exercise5.m" precedes "chapt5Exercise5.m" in filename
order; and a type outside the ranking (indexOf -1) sorts first, not last. -/
theorem c6_counterexample :
    (((runStats ["chapt5Exercise5.m", "CHAPT5Exercise5.m"]).programFiles.map
      (fun p => (p.1, indexPageOrder p.2))) =
      [("Chapt5Exercise5", ["chapt5Exercise5.m", "CHAPT5Exercise5.m"])]) ∧
    (strCmp "CHAPT5Exercise5.m" "chapt5Exercise5.m" = -1) ∧
    ((sortMembers
        [ ⟨"a.zz", "a.zz", ⟨"zzz", "", "", "", false, none, none, none, none⟩⟩,
          ⟨"b.m", "b.m",
            ⟨"matlab", "", "", "", false, none, none, none, none⟩⟩ ]).map
        (fun r => r.filename) = ["a.zz", "b.m"]) ∧
    (jsIndexOf typeOrder "zzz" = -1) := by decide

/-- C6 (amended): the index-page member sort orders members by the fixed
type-priority ranking only: the result is a permutation of the input, it is
sorted by the rank given by typeOrder.indexOf (unranked types rank -1 and
hence sort first), and the sort is stable — members of equal rank, in
particular members of the same type, keep discovery order; filenames play no
role. -/
theorem c6_member_sort (l : List FileRec) :
    List.Perm (sortMembers l) l ∧
    (sortMembers l).Pairwise (fun a b => memberRank a - memberRank b ≤ 0) ∧
    ∀ K : Int, (sortMembers l).filter (fun r => decide (memberRank r = K)) =
      l.filter (fun r => decide (memberRank r = K)) :=
  ⟨sortJS_perm _ l,
    sortJS_pairwise memberRank_total memberRank_trans l,
    fun K => sortJS_key_stable memberRank l K⟩

/-- C7 counterexample: the same input set enumerated in two different orders
produces two different navigation structures (the utilities and chapter-4
categories swap), refuting byte-determinism independent of enumeration
order. -/
theorem c7_counterexample :
    (List.Perm ["mu.m", "Chapt4Exercise2.m"] ["Chapt4Exercise2.m", "mu.m"]) ∧
    sidebarCategories ((runStats ["mu.m", "Chapt4Exercise2.m"]).byChapter) ≠
      sidebarCategories
        ((runStats ["Chapt4Exercise2.m", "mu.m"]).byChapter) := by decide

/-- C7 (amended): the navigation structure is a deterministic function of
the byChapter contents, and it is independent of insertion/enumeration order
provided every chapter key is numeric with pairwise distinct values; with a
non-numeric (utilities) key present the chapter comparator returns ties
(NaN coerced to 0) and the stable sort keeps insertion order, so enumeration
order can change the emitted structure (see the counterexample). -/
theorem c7_navigation_deterministic (m1 m2 : List (String × List String))
    (hk : List.Perm (m1.map Prod.fst) (m2.map Prod.fst))
    (hnd : (m1.map Prod.fst).Nodup)
    (hv : ∀ k ∈ m1.map Prod.fst,
      List.Perm ((mapGet m1 k).getD []) ((mapGet m2 k).getD []) ∧
        ((mapGet m1 k).getD []).Nodup)
    (hnum : ∀ k ∈ m1.map Prod.fst, (jsParseInt k).isSome)
    (hinj : ∀ k ∈ m1.map Prod.fst, ∀ k' ∈ m1.map Prod.fst,
      jsParseInt k = jsParseInt k' → k = k') :
    sidebarCategories m1 = sidebarCategories m2 :=
  sidebarCategories_content_eq m1 m2 hk hnd hv hnum hinj

/-- C7 witness: the amended theorem applied to two concrete content-equal
byChapter maps with distinct numeric keys. -/
theorem c7_witness :
    (List.Perm
      ((([("1", ["Chapt1Exercise8"]),
          ("3", ["Chapt3Fig2", "Chapt3Exercise10"])] :
            List (String × List String))).map Prod.fst)
      ((([("3", ["Chapt3Exercise10", "Chapt3Fig2"]),
          ("1", ["Chapt1Exercise8"])] :
            List (String × List String))).map Prod.fst)) ∧
    sidebarCategories
        [("1", ["Chapt1Exercise8"]), ("3", ["Chapt3Fig2", "Chapt3Exercise10"])] =
      sidebarCategories
        [("3", ["Chapt3Exercise10", "Chapt3Fig2"]), ("1", ["Chapt1Exercise8"])] :=
  ⟨by decide,
    c7_navigation_deterministic
      [("1", ["Chapt1Exercise8"]), ("3", ["Chapt3Fig2", "Chapt3Exercise10"])]
      [("3", ["Chapt3Exercise10", "Chapt3Fig2"]), ("1", ["Chapt1Exercise8"])]
      (by decide) (by decide) (by decide) (by decide) (by decide)⟩

/-- C8 counterexample: clean does not remove the utilities docs directory:
cleaning a docs tree [intro.md, utilities, chapter3] removes only chapter3
and the static root, leaving the fallback utilities chapter directory behind,
refuting that clean removes every chapter-scoped output directory including
the utilities one. -/
theorem c8_counterexample :
    cleanGenerated { docsEntries := ["intro.md", "utilities", "chapter3"],
                     staticProgramsExists := true,
                     inboxFiles := ["fermi.m"], sidebarExists := true } =
      { docsEntries := ["intro.md", "utilities"],
        staticProgramsExists := false,
        inboxFiles := ["fermi.m"], sidebarExists := true } := by decide

/-- C8 (amended): clean removes exactly the docs entries whose names start
with "chapter" plus the entire static output root, and it is idempotent
(cleaning twice equals cleaning once, and cleaning an empty state is safe);
the utilities docs directory does not start with "chapter" and therefore
always survives clean. -/
theorem c8_clean_behaviour (s : FsState) :
    cleanGenerated (cleanGenerated s) = cleanGenerated s ∧
    (cleanGenerated s).staticProgramsExists = false ∧
    (∀ e, e ∈ (cleanGenerated s).docsEntries ↔
      e ∈ s.docsEntries ∧ strStartsWith e "chapter" = false) ∧
    ("utilities" ∈ s.docsEntries →
      "utilities" ∈ (cleanGenerated s).docsEntries) := by
  refine ⟨?_, rfl, ?_, ?_⟩
  · cases s with
    | mk docs st inbox sb =>
      simp only [cleanGenerated]
      rw [filter_self_idem]
  · intro e
    constructor
    · intro he
      rcases List.mem_filter.mp he with ⟨h1, h2⟩
      exact ⟨h1, by simpa using h2⟩
    · intro he
      exact List.mem_filter.mpr ⟨he.1, by simp [he.2]⟩
  · intro hu
    exact List.mem_filter.mpr ⟨hu, by decide⟩

/-- C8 witness: the amended theorem applied to a concrete state containing
a utilities docs directory. -/
theorem c8_witness :
    "utilities" ∈
      (cleanGenerated ⟨["utilities", "chapter2"], true, [], true⟩
        : FsState).docsEntries := by
  have h := c8_clean_behaviour
    ⟨["utilities", "chapter2"], true, [], true⟩
  exact h.2.2.2 (by decide)

/-- C10: clean's frame: the INBOX source files and the sidebar configuration
file are never deleted or modified; docs entries not starting with "chapter"
(the intro page, the utilities docs directory) are preserved; every surviving
docs entry existed before; and an entry that disappears necessarily started
with "chapter" — only chapter-prefixed docs entries and the static programs
root are removed. -/
theorem c10_clean_frame (s : FsState) :
    (cleanGenerated s).inboxFiles = s.inboxFiles ∧
    (cleanGenerated s).sidebarExists = s.sidebarExists ∧
    (∀ e, e ∈ (cleanGenerated s).docsEntries → e ∈ s.docsEntries) ∧
    (∀ e, e ∈ s.docsEntries → strStartsWith e "chapter" = false →
      e ∈ (cleanGenerated s).docsEntries) ∧
    (∀ e, e ∈ s.docsEntries → e ∉ (cleanGenerated s).docsEntries →
      strStartsWith e "chapter" = true) := by
  refine ⟨rfl, rfl, ?_, ?_, ?_⟩
  · intro e he
    exact (List.mem_filter.mp he).1
  · intro e he hns
    exact List.mem_filter.mpr ⟨he, by simp [hns]⟩
  · intro e he hout
    by_contra hns
    exact hout (List.mem_filter.mpr ⟨he,
      by simp [Bool.eq_false_iff.mpr hns]⟩)

/-- C10 witness: the frame theorem applied to a concrete state. -/
theorem c10_witness :
    (cleanGenerated ⟨["intro.md", "chapter1"], true, ["runge4.m"], true⟩
      : FsState).inboxFiles = ["runge4.m"] ∧
    "intro.md" ∈
      (cleanGenerated ⟨["intro.md", "chapter1"], true, ["runge4.m"], true⟩
        : FsState).docsEntries := by
  have h := c10_clean_frame ⟨["intro.md", "chapter1"], true, ["runge4.m"], true⟩
  exact ⟨h.1, h.2.2.2.1 "intro.md" (by decide) (by decide)⟩

/-- C9: under the precondition that a file has passed the supported-extension
filter, the two skip branches inside the grouping loop are unreachable: for
the basename handed to the loop body, extractProgramInfo returns non-null
(a non-matching name falls back to Utility because the extension is
supported) and getFileTypeConfig returns non-null, so the loop body never
increments the skipped counter. -/
theorem c9_skip_branches_unreachable (filePath : String)
    (h : isSupportedFile filePath = true) :
    extractProgramInfo (String.mk (basenameSeg filePath.data)) ≠ none ∧
    getFileTypeConfig (String.mk (basenameSeg filePath.data)) ≠ none ∧
    ∀ stats : Stats, (processFile stats filePath).skipped = stats.skipped := by
  have hsb : isSupportedFile (String.mk (basenameSeg filePath.data)) = true := by
    rw [isSupportedFile_basenameSeg]
    exact h
  refine ⟨?_, ?_, fun stats => processFile_skipped_supported stats filePath h⟩
  · exact Option.isSome_iff_ne_none.mp (extractProgramInfo_isSome hsb)
  · exact Option.isSome_iff_ne_none.mp (getFileTypeConfig_isSome hsb)

/-- C9 witness: the theorem applied to the concrete file Chapt1Exercise8.m. -/
theorem c9_witness :
    (isSupportedFile "Chapt1Exercise8.m" = true) ∧
    (extractProgramInfo
        (String.mk (basenameSeg "Chapt1Exercise8.m".data)) ≠ none ∧
      getFileTypeConfig
        (String.mk (basenameSeg "Chapt1Exercise8.m".data)) ≠ none ∧
      ∀ stats : Stats,
        (processFile stats "Chapt1Exercise8.m").skipped = stats.skipped) :=
  ⟨by decide, c9_skip_branches_unreachable "Chapt1Exercise8.m" (by decide)⟩
